import Mathlib

/-!
Shallow embedding of the Tetris-Balatro engine (`tetris_balatro.py`):
the grid, the `Tetromino` piece, collision detection, movement, rotation
with wall kicks, locking, the bomb effect, line clearing with scoring and
leveling, the hold mechanic, the deck-based piece source, and the gravity
tick of `TetrisGame.update`.  Grids are lists of rows of `Nat` cells
(0 = empty, `shape_index + 1` = occupied); scores are rationals because the
Python score becomes a float once a multiplier or bomb bonus is applied.
-/

/-- The `GRID_WIDTH` constant of the source. -/
def GRID_WIDTH : Nat := 10

/-- The `GRID_HEIGHT` constant of the source. -/
def GRID_HEIGHT : Nat := 20

/-- The `SHAPES` table: the seven tetromino geometries, row-major 0/1 matrices. -/
def SHAPES : List (List (List Nat)) :=
  [ [[1, 1, 1, 1]],
    [[1, 1], [1, 1]],
    [[0, 1, 0], [1, 1, 1]],
    [[0, 1, 1], [1, 1, 0]],
    [[1, 1, 0], [0, 1, 1]],
    [[1, 0, 0], [1, 1, 1]],
    [[0, 0, 1], [1, 1, 1]] ]

/-- Python `zip(*rows)`: transpose truncated to the shortest row (returns
`[]` on an empty list of rows, exactly like `zip()` with no arguments). -/
def pyZip (rows : List (List Nat)) : List (List Nat) :=
  match rows with
  | [] => []
  | r0 :: rest =>
    let m := rest.foldl (fun acc r => min acc r.length) r0.length
    (List.range m).map (fun j => (r0 :: rest).map (fun r => r.getD j 0))

/-- Embedding of `Tetromino.rotate`: `[list(row) for row in zip(*self.shape[::-1])]`,
a 90-degree clockwise rotation. -/
def pyRotate (s : List (List Nat)) : List (List Nat) := pyZip s.reverse

/-- The mutable state of a `Tetromino` instance. -/
structure Piece where
  shape_index : Nat
  shape : List (List Nat)
  x : Int
  y : Int
  is_bomb : Bool
deriving DecidableEq, Repr

/-- Cells of one shape row: inner loop of `Tetromino.get_cells`. -/
def rowCells (x0 y : Int) : Nat → List Nat → List (Int × Int)
  | _, [] => []
  | ci, c :: cs =>
    (if c ≠ 0 then [(x0 + (ci : Int), y)] else []) ++ rowCells x0 y (ci + 1) cs

/-- Cells of a shape matrix: outer loop of `Tetromino.get_cells`. -/
def shapeCells (x0 y0 : Int) : Nat → List (List Nat) → List (Int × Int)
  | _, [] => []
  | ri, r :: rs =>
    rowCells x0 (y0 + (ri : Int)) 0 r ++ shapeCells x0 y0 (ri + 1) rs

/-- Embedding of `Tetromino.get_cells`: board coordinates of the occupied cells. -/
def Piece.get_cells (p : Piece) : List (Int × Int) :=
  shapeCells p.x p.y 0 p.shape

/-- A board: list of rows, each a list of cells (0 empty, `s+1` occupied). -/
abbrev Grid := List (List Nat)

/-- Read `grid[y][x]` (0 when out of range). -/
def cellAt (g : Grid) (x y : Nat) : Nat := (g.getD y []).getD x 0

/-- Write `grid[y][x] = v` (no-op out of range). -/
def setCell (g : Grid) (x y v : Nat) : Grid :=
  g.set y ((g.getD y []).set x v)

/-- An all-empty row, `[0]*GRID_WIDTH`. -/
def emptyRow : List Nat := List.replicate GRID_WIDTH 0

/-- The all-empty starting grid. -/
def emptyGrid : Grid := List.replicate GRID_HEIGHT emptyRow

/-- Embedding of `TetrisGame.check_collision`: true iff some occupied cell, translated by
`(dx, dy)`, leaves the horizontal bounds, passes the floor, or (at `y ≥ 0`)
lands on an occupied board cell. -/
def check_collision (g : Grid) (p : Piece) (dx dy : Int) : Bool :=
  p.get_cells.any fun c =>
    let nx := c.1 + dx
    let ny := c.2 + dy
    if nx < 0 ∨ nx ≥ (GRID_WIDTH : Int) ∨ ny ≥ (GRID_HEIGHT : Int) then true
    else if ny ≥ 0 ∧ cellAt g nx.toNat ny.toNat ≠ 0 then true
    else false

/-- The grid-writing loop of `TetrisGame.lock_piece`: every occupied cell
with `y ≥ 0` is written as `shape_index + 1`. -/
def placePiece (g : Grid) (p : Piece) : Grid :=
  p.get_cells.foldl
    (fun gr c =>
      if 0 ≤ c.2 then setCell gr c.1.toNat c.2.toNat (p.shape_index + 1) else gr)
    g

/-- The nine `(dx, dy)` offsets of the bomb, in the source's loop order
(`dy` outer, `dx` inner). -/
def bombOffsets : List (Int × Int) :=
  [(-1, -1), (0, -1), (1, -1), (-1, 0), (0, 0), (1, 0), (-1, 1), (0, 1), (1, 1)]

/-- Grid part of `TetrisGame.explode_bomb`: clear every in-bounds cell of the
3x3 neighborhood of `(bx, by)`. -/
def explodeGrid (g : Grid) (bx byy : Int) : Grid :=
  bombOffsets.foldl
    (fun gr d =>
      let x := bx + d.1
      let y := byy + d.2
      if 0 ≤ x ∧ x < (GRID_WIDTH : Int) ∧ 0 ≤ y ∧ y < (GRID_HEIGHT : Int) then
        setCell gr x.toNat y.toNat 0
      else gr)
    g

/-- The cell-writing loop of `placePiece`, generalized over the cell list
and the written value (`placePiece` uses `p.get_cells` and
`p.shape_index + 1`). -/
def placeSteps (v : Nat) (L : List (Int × Int)) (g : Grid) : Grid :=
  L.foldl
    (fun gr c => if 0 ≤ c.2 then setCell gr c.1.toNat c.2.toNat v else gr) g

/-- The cell-clearing loop of `explodeGrid`, generalized over the offset
list (`explodeGrid` uses `bombOffsets`). -/
def explodeSteps (bx byy : Int) (L : List (Int × Int)) (g : Grid) : Grid :=
  L.foldl
    (fun gr d =>
      if 0 ≤ bx + d.1 ∧ bx + d.1 < (GRID_WIDTH : Int) ∧ 0 ≤ byy + d.2 ∧ byy + d.2 < (GRID_HEIGHT : Int) then
        setCell gr (bx + d.1).toNat (byy + d.2).toNat 0
      else gr)
    g

/-- Python `all(self.grid[y])`: every cell of the row is occupied (truthy). -/
def rowFull (r : List Nat) : Bool := r.all (· ≠ 0)

/-- The `lines_to_clear` list: the indices `y < GRID_HEIGHT` whose row is full,
in increasing order. -/
def fullRows (g : Grid) : List Nat :=
  (List.range GRID_HEIGHT).filter (fun y => rowFull (g.getD y []))

/-- The grid after the removal loop of `clear_lines`:
`for y in lines_to_clear: del grid[y]; grid.insert(0, [0]*GRID_WIDTH)`. -/
def gridAfterClear (g : Grid) : Grid :=
  (fullRows g).foldl (fun gr y => emptyRow :: gr.eraseIdx y) g

/-- The base-score table `[0, 100, 300, 500, 800]`. -/
def lineScoreTable : List Nat := [0, 100, 300, 500, 800]

/-- Python `int(...)` on a rational: truncation toward zero. -/
def pyTrunc (q : ℚ) : ℤ := if 0 ≤ q then ⌊q⌋ else -⌊-q⌋

/-- The `GameState` enumeration. -/
inductive GameState where
  | MENU | PLAYING | SHOP | PACK_OPENING | GAME_OVER
deriving DecidableEq, Repr

/-- The engine-relevant state of a `TetrisGame` instance.  The upgrade
dictionary is flattened into the `score_multiplier`, `extra_lines`,
`hold_enabled`, `ghost_enabled` and `bomb_enabled` fields. -/
structure Game where
  grid : Grid
  current_piece : Option Piece
  next_piece_index : Nat
  piece_deck : List Nat
  score : ℚ
  lines_cleared : Nat
  level : Nat
  fall_time : Int
  fall_speed : Int
  game_over : Bool
  state : GameState
  round_number : Nat
  round_target : Int
  money : Int
  jokers : List String
  score_multiplier : ℚ
  extra_lines : Nat
  hold_enabled : Bool
  ghost_enabled : Bool
  bomb_enabled : Bool
  held_piece : Option Nat
  can_hold : Bool
deriving DecidableEq, Repr

/-- Embedding of `TetrisGame.get_random_piece_from_deck`, with the random index supplied
as `pk`: refill the deck with one of each shape when empty, then draw. -/
def get_random_piece_from_deck (deck : List Nat) (pk : Nat) : Nat × List Nat :=
  let d := if deck.isEmpty then List.range SHAPES.length else deck
  (d.getD (pk % d.length) 0, d)

/-- The same draw, surfacing the one failure Python's `random.choice` could
raise (choosing from an empty sequence) as `none`. -/
def draw_checked (deck : List Nat) (pk : Nat) : Option (Nat × List Nat) :=
  let d := if deck.isEmpty then List.range SHAPES.length else deck
  match d with
  | [] => none
  | _ => some (d.getD (pk % d.length) 0, d)

/-- Embedding of `TetrisGame.spawn_piece`; `br` is the outcome of
`random.random() < 0.1` and `pk` drives the deck draw. -/
def spawn_piece (g : Game) (br : Bool) (pk : Nat) : Game :=
  let si := g.next_piece_index
  let d := get_random_piece_from_deck g.piece_deck pk
  let p : Piece :=
    { shape_index := si, shape := SHAPES.getD si [],
      x := ((GRID_WIDTH / 2 - 1 : Nat) : Int), y := 0,
      is_bomb := g.bomb_enabled && br }
  let g1 := { g with current_piece := some p, next_piece_index := d.1,
                     piece_deck := d.2, can_hold := true }
  if check_collision g1.grid p 0 0 then
    { g1 with game_over := true, state := GameState.GAME_OVER }
  else g1

/-- Embedding of `TetrisGame.move`: returns the new state and the success flag. -/
def move (g : Game) (dx dy : Int) : Game × Bool :=
  match g.current_piece with
  | some p =>
    if ¬ check_collision g.grid p dx dy then
      ({ g with current_piece := some { p with x := p.x + dx, y := p.y + dy } }, true)
    else (g, false)
  | none => (g, false)

/-- The wall-kick offsets `[1, -1, 2, -2]` tried by `rotate_piece`. -/
def kickList : List Int := [1, -1, 2, -2]

/-- Embedding of `TetrisGame.rotate_piece`: rotate in place, search the kick list on
collision, revert the geometry when every kick fails. -/
def rotate_piece (g : Game) : Game :=
  match g.current_piece with
  | none => g
  | some p =>
    let pr : Piece := { p with shape := pyRotate p.shape }
    if check_collision g.grid pr 0 0 then
      match kickList.find? (fun k => !(check_collision g.grid pr k 0)) with
      | some k => { g with current_piece := some { pr with x := pr.x + k } }
      | none => { g with current_piece := some { pr with shape := p.shape } }
    else { g with current_piece := some pr }

/-- Embedding of `TetrisGame.clear_lines`: detect full rows, compact the grid, score the
clear under jokers/upgrades, and run the single level-up check. -/
def clear_lines (g : Game) : Game :=
  let ys := fullRows g.grid
  if ys.isEmpty then g
  else
    let grid' := gridAfterClear g.grid
    let n := ys.length
    let base0 : ℚ := ((lineScoreTable.getD n 0 : Nat) : ℚ) * (g.level : ℚ)
    let base1 := g.jokers.foldl
      (fun b j =>
        if j = "Double Points" then b * 2
        else if j = "Line Bonus" then b + 50 * (n : ℚ)
        else b) base0
    let base2 := base1 * g.score_multiplier
    let base3 := base2 + (g.extra_lines : ℚ) * 100
    let lc := g.lines_cleared + n
    let g1 := { g with grid := grid',
                       score := g.score + ((pyTrunc base3 : ℤ) : ℚ),
                       lines_cleared := lc }
    if g.level * 10 ≤ lc then
      { g1 with level := g.level + 1, fall_speed := max 100 (g.fall_speed - 50) }
    else g1

/-- Embedding of `TetrisGame.explode_bomb`: clear the 3x3 neighborhood and award the
`200 * score_multiplier` bonus. -/
def explode_bomb (g : Game) (bx byy : Int) : Game :=
  { g with grid := explodeGrid g.grid bx byy,
           score := g.score + 200 * g.score_multiplier }

/-- Embedding of `TetrisGame.lock_piece`: write the piece into the grid, run the bomb
effect for special pieces, clear lines, then spawn the next piece. -/
def lock_piece (g : Game) (br : Bool) (pk : Nat) : Game :=
  match g.current_piece with
  | none => g
  | some p =>
    let g1 := { g with grid := placePiece g.grid p }
    let g2 := if p.is_bomb then explode_bomb g1 p.x p.y else g1
    spawn_piece (clear_lines g2) br pk

/-- Embedding of `TetrisGame.hold_piece`: gated by the hold upgrade and `can_hold`;
store-and-spawn when the slot is empty, swap-in-place when occupied. -/
def hold_piece (g : Game) (br : Bool) (pk : Nat) : Game :=
  match g.current_piece with
  | none => g
  | some p =>
    if g.hold_enabled && g.can_hold then
      match g.held_piece with
      | none =>
        let g1 := spawn_piece { g with held_piece := some p.shape_index } br pk
        { g1 with can_hold := false }
      | some h =>
        { g with held_piece := some p.shape_index,
                 current_piece := some { p with shape_index := h,
                                                shape := SHAPES.getD h [],
                                                x := ((GRID_WIDTH / 2 - 1 : Nat) : Int),
                                                y := 0 },
                 can_hold := false }
    else g

/-- Embedding of `TetrisGame.update`: in the playing state, accumulate `dt`, fire a single
gravity `move(0, 1)` when the accumulator reaches `fall_speed` (discarding
the success flag), then run the round-complete check.  Animation-timer
updates of the non-playing states touch no engine state. -/
def update (g : Game) (dt : Int) : Game :=
  if g.state = GameState.PLAYING then
    let g1 :=
      match g.current_piece with
      | some _ =>
        let ft := g.fall_time + dt
        if ft ≥ g.fall_speed then
          { (move { g with fall_time := ft } 0 1).1 with fall_time := 0 }
        else { g with fall_time := ft }
      | none => g
    if (g1.round_target : ℚ) ≤ g1.score then
      { g1 with money := g1.money + 100 + (g1.round_number : Int) * 50,
                state := GameState.SHOP }
    else g1
  else g

/-! ### Proof infrastructure: specification-side definitions -/

/-- Rows of `g` surviving row removal: keep the row at absolute index `i + k`
(for the `k`-th element of `g`) exactly when that index is not listed in
`ys`. -/
def keepAux {α : Type} : Nat → List α → List Nat → List α
  | _, [], _ => []
  | i, a :: t, ys =>
    if i ∈ ys then keepAux (i + 1) t ys else a :: keepAux (i + 1) t ys

/-- Indices of full rows, scanning the actual length of the grid (agrees
with `fullRows` on well-formed 20-row grids). -/
def fullIdx (g : Grid) : List Nat :=
  (List.range g.length).filter (fun y => rowFull (g.getD y []))

/-- The grid has exactly `GRID_HEIGHT` rows of `GRID_WIDTH` cells. -/
def gridDims (g : Grid) : Prop :=
  g.length = GRID_HEIGHT ∧ ∀ r ∈ g, r.length = GRID_WIDTH

/-- Well-formed board: correct dimensions, and every cell is either empty
(0) or `s + 1` for a catalog shape index `s`. -/
def boardInv (g : Grid) : Prop :=
  gridDims g ∧ ∀ r ∈ g, ∀ c ∈ r, c = 0 ∨ ∃ s, s < SHAPES.length ∧ c = s + 1

/-- No row of the grid is full. -/
def noFullRow (g : Grid) : Prop := ∀ r ∈ g, rowFull r = false

/-- Shapes an active piece can carry: a catalog geometry, or any clockwise
rotation of one. -/
inductive GoodShape : List (List Nat) → Prop where
  | base : ∀ i, GoodShape (SHAPES.getD i [])
  | rot : ∀ s, GoodShape s → GoodShape (pyRotate s)

/-- The active piece, if any, carries a catalog-derived geometry. -/
def pieceGood (g : Game) : Prop :=
  ∀ p, g.current_piece = some p → GoodShape p.shape

/-- Row indices a locking piece can write to: `toNat (p.y + ri)` for each
shape row `ri`. -/
def touchedRows (p : Piece) : List Nat :=
  (List.range p.shape.length).map (fun (ri : Nat) => (p.y + (ri : Int)).toNat)

/-- States reachable through the engine's operations: any state whose board
is the empty starting board and whose piece is catalog-derived (game start
and round start), closed under move, rotate, hold, lock, spawn and the
gravity tick. -/
inductive Reachable : Game → Prop where
  | init : ∀ g, g.grid = emptyGrid → pieceGood g → Reachable g
  | mv : ∀ g dx dy, Reachable g → Reachable (move g dx dy).1
  | rot : ∀ g, Reachable g → Reachable (rotate_piece g)
  | holdOp : ∀ g br pk, Reachable g → Reachable (hold_piece g br pk)
  | lockOp : ∀ g br pk, Reachable g → Reachable (lock_piece g br pk)
  | spawnOp : ∀ g br pk, Reachable g → Reachable (spawn_piece g br pk)
  | tick : ∀ g dt, Reachable g → Reachable (update g dt)

/-! ### Concrete states used as witnesses -/

/-- A playing-state session with default meta state and an empty board. -/
def baseGame : Game :=
  { grid := emptyGrid, current_piece := none, next_piece_index := 0,
    piece_deck := List.range SHAPES.length, score := 0, lines_cleared := 0,
    level := 1, fall_time := 0, fall_speed := 500, game_over := false,
    state := GameState.PLAYING, round_number := 1, round_target := 1000,
    money := 500, jokers := [], score_multiplier := 1, extra_lines := 0,
    hold_enabled := false, ghost_enabled := false, bomb_enabled := false,
    held_piece := none, can_hold := true }

/-- An O-piece resting on the floor (rows 18 and 19): it cannot descend. -/
def oPieceOnFloor : Piece :=
  { shape_index := 1, shape := SHAPES.getD 1 [], x := 4, y := 18,
    is_bomb := false }

/-- The failing input for the gravity-lock claim: a playing state whose
active piece rests on the floor while gravity ticks keep firing. -/
def blockedGame : Game := { baseGame with current_piece := some oPieceOnFloor }

/-- A row with every cell occupied (by the T shape's id). -/
def fullTestRow : List Nat := List.replicate GRID_WIDTH 3

/-- A board whose only full row is the bottom one. -/
def oneFullGrid : Grid := List.replicate 19 emptyRow ++ [fullTestRow]

/-- A board whose bottom four rows are full. -/
def fourFullGrid : Grid := List.replicate 16 emptyRow ++ List.replicate 4 fullTestRow

/-- A completely occupied board. -/
def allFullGrid : Grid := List.replicate GRID_HEIGHT fullTestRow

/-- A T-piece at the spawn position on an empty board. -/
def tPieceSpawn : Piece :=
  { shape_index := 2, shape := SHAPES.getD 2 [], x := 4, y := 0,
    is_bomb := false }

/-- A bomb O-piece with origin (5, 5). -/
def bombPiece : Piece :=
  { shape_index := 1, shape := SHAPES.getD 1 [], x := 5, y := 5,
    is_bomb := true }

/-- A playing state with the hold upgrade owned and a T-piece falling. -/
def holdTestGame : Game :=
  { baseGame with current_piece := some tPieceSpawn, hold_enabled := true }

/-- A playing state about to lock a bomb piece on a fully occupied board. -/
def bombTestGame : Game :=
  { baseGame with grid := allFullGrid, current_piece := some bombPiece,
                  bomb_enabled := true }

/-- The engine-state invariant carried through reachability: well-sized
grid, no full row standing, and a catalog-derived active geometry. -/
def stateOK (g : Game) : Prop :=
  gridDims g.grid ∧ noFullRow g.grid ∧ pieceGood g

/-! ## Helper lemmas: indexed row removal -/

theorem tb_keep_nil {α : Type} : ∀ (g : List α) (i : Nat), keepAux i g [] = g := by
  intro g
  induction g with
  | nil => intro i; rfl
  | cons a t ih => intro i; simp [keepAux, ih]

theorem tb_keep_lt {α : Type} :
    ∀ (t : List α) (j y : Nat) (ys : List Nat), y < j →
      keepAux j t (y :: ys) = keepAux j t ys := by
  intro t
  induction t with
  | nil => intro j y ys _; rfl
  | cons a t ih =>
    intro j y ys hyj
    have hmem : (j ∈ y :: ys) = (j ∈ ys) := by
      simp only [List.mem_cons, eq_iff_iff]
      constructor
      · rintro (h | h)
        · omega
        · exact h
      · exact Or.inr
    simp only [keepAux, hmem]
    rw [ih (j + 1) y ys (by omega)]

theorem tb_keep_shift {α : Type} :
    ∀ (t : List α) (i : Nat) (ys : List Nat),
      keepAux (i + 1) t (ys.map (· + 1)) = keepAux i t ys := by
  intro t
  induction t with
  | nil => intro i ys; rfl
  | cons a t ih =>
    intro i ys
    have hmem : (i + 1 ∈ ys.map (· + 1)) = (i ∈ ys) := by
      simp [List.mem_map]
    simp only [keepAux, hmem]
    rw [ih (i + 1) ys]

theorem tb_keep_erase {α : Type} :
    ∀ (g : List α) (i y : Nat) (ys : List Nat), i ≤ y → (∀ z ∈ ys, y < z) →
      keepAux (i + 1) (g.eraseIdx (y - i)) ys = keepAux i g (y :: ys) := by
  intro g
  induction g with
  | nil => intro i y ys _ _; simp [List.eraseIdx]; rfl
  | cons a t ih =>
    intro i y ys hiy hz
    rcases Nat.eq_or_lt_of_le hiy with heq | hlt
    · subst heq
      have h0 : i - i = 0 := by omega
      rw [h0]
      have he : (a :: t).eraseIdx 0 = t := rfl
      rw [he]
      have hmem : i ∈ i :: ys := List.mem_cons_self i ys
      simp only [keepAux, if_pos hmem]
      rw [tb_keep_lt t (i + 1) i ys (by omega)]
    · have h1 : y - i = (y - (i + 1)) + 1 := by omega
      rw [h1]
      have he : (a :: t).eraseIdx ((y - (i + 1)) + 1) = a :: t.eraseIdx (y - (i + 1)) := rfl
      rw [he]
      have hni : ¬ (i + 1 ∈ ys) := fun h => by have := hz _ h; omega
      have hni' : ¬ (i ∈ y :: ys) := by
        simp only [List.mem_cons]
        rintro (h | h)
        · omega
        · have := hz _ h; omega
      simp only [keepAux, if_neg hni, if_neg hni']
      rw [ih (i + 1) y ys (by omega) hz]

theorem tb_fold_clear {α : Type} (e : α) :
    ∀ (ys : List Nat) (g : List α), List.Pairwise (· < ·) ys →
      ys.foldl (fun gr y => e :: gr.eraseIdx y) g =
        List.replicate ys.length e ++ keepAux 0 g ys := by
  intro ys
  induction ys with
  | nil => intro g _; simp [tb_keep_nil]
  | cons y ys' ih =>
    intro g hp
    rw [List.pairwise_cons] at hp
    obtain ⟨hy', hp'⟩ := hp
    have step : (y :: ys').foldl (fun gr y => e :: gr.eraseIdx y) g =
        ys'.foldl (fun gr y => e :: gr.eraseIdx y) (e :: g.eraseIdx y) := rfl
    rw [step, ih _ hp']
    have h0 : ¬ (0 ∈ ys') := fun h => by have := hy' _ h; omega
    have hk : keepAux 0 (e :: g.eraseIdx y) ys' = e :: keepAux 1 (g.eraseIdx y) ys' := by
      simp only [keepAux, if_neg h0]
    rw [hk]
    have hke : keepAux 1 (g.eraseIdx y) ys' = keepAux 0 g (y :: ys') := by
      have := tb_keep_erase g 0 y ys' (Nat.zero_le y) hy'
      simpa using this
    rw [hke]
    have : List.replicate ys'.length e ++ e :: keepAux 0 g (y :: ys') =
        (List.replicate ys'.length e ++ [e]) ++ keepAux 0 g (y :: ys') := by
      rw [List.append_assoc]; rfl
    rw [this, ← List.replicate_succ' ys'.length e]
    rfl

/-! ## Helper lemmas: full-row indices -/

theorem tb_fullIdx_nil : fullIdx [] = [] := rfl

theorem tb_fullIdx_cons (r : List Nat) (t : Grid) :
    fullIdx (r :: t) =
      (if rowFull r then [0] else []) ++ (fullIdx t).map (· + 1) := by
  unfold fullIdx
  have hlen : (r :: t).length = t.length + 1 := rfl
  rw [hlen, List.range_succ_eq_map, List.filter_cons]
  have h0 : ((r :: t).getD 0 []) = r := rfl
  rw [List.filter_map]
  have hfc : List.filter ((fun y => rowFull ((r :: t).getD y [])) ∘ Nat.succ) (List.range t.length) =
      List.filter (fun y => rowFull (t.getD y [])) (List.range t.length) := by
    apply List.filter_congr
    intro x _
    rfl
  rw [hfc]
  have hmap : List.map Nat.succ (List.filter (fun y => rowFull (t.getD y [])) (List.range t.length)) =
      (List.filter (fun y => rowFull (t.getD y [])) (List.range t.length)).map (· + 1) := by
    apply List.map_congr_left
    intro x _
    rfl
  by_cases hr : rowFull r
  · simp only [h0, hr, if_pos, List.singleton_append, hmap]
  · simp only [h0, hr, Bool.false_eq_true, if_neg, List.nil_append, hmap]
    rfl

theorem tb_keep_fullIdx : ∀ g : Grid, keepAux 0 g (fullIdx g) = g.filter (fun r => !(rowFull r)) := by
  intro g
  induction g with
  | nil => rfl
  | cons r t ih =>
    rw [tb_fullIdx_cons]
    have hshift : keepAux 1 t ((fullIdx t).map (· + 1)) = keepAux 0 t (fullIdx t) := by
      have h2 := tb_keep_shift t 0 (fullIdx t)
      rwa [show (0 : Nat) + 1 = 1 from rfl] at h2
    by_cases hr : rowFull r
    · rw [if_pos hr, List.singleton_append]
      have hmem : (0 : Nat) ∈ 0 :: (fullIdx t).map (· + 1) := List.mem_cons_self _ _
      have h1 : keepAux 0 (r :: t) (0 :: (fullIdx t).map (· + 1)) =
          keepAux 1 t (0 :: (fullIdx t).map (· + 1)) := by
        simp [keepAux]
      rw [h1, tb_keep_lt t 1 0 ((fullIdx t).map (· + 1)) (by omega), hshift, ih,
        List.filter_cons]
      simp [hr]
    · rw [if_neg hr, List.nil_append]
      have hmem : ¬ ((0 : Nat) ∈ (fullIdx t).map (· + 1)) := by
        simp [List.mem_map]
      have h1 : keepAux 0 (r :: t) ((fullIdx t).map (· + 1)) =
          r :: keepAux 1 t ((fullIdx t).map (· + 1)) := by
        simp [keepAux, hmem]
      rw [h1, hshift, ih, List.filter_cons]
      simp [hr]

theorem tb_fullIdx_pairwise (g : Grid) : (fullIdx g).Pairwise (· < ·) :=
  (List.pairwise_lt_range g.length).filter _

theorem tb_fullIdx_length : ∀ g : Grid, (fullIdx g).length = g.countP rowFull := by
  intro g
  induction g with
  | nil => rfl
  | cons r t ih =>
    rw [tb_fullIdx_cons, List.countP_cons]
    by_cases hr : rowFull r
    · simp [hr, ih]
    · simp [hr, ih]

theorem tb_fullRows_eq (g : Grid) (h : g.length = GRID_HEIGHT) : fullRows g = fullIdx g := by
  unfold fullRows fullIdx
  rw [h]

theorem tb_gridAfterClear_eq (g : Grid) (h : g.length = GRID_HEIGHT) :
    gridAfterClear g =
      List.replicate (g.countP rowFull) emptyRow ++ g.filter (fun r => !(rowFull r)) := by
  unfold gridAfterClear
  rw [tb_fullRows_eq g h,
    tb_fold_clear emptyRow (fullIdx g) g (tb_fullIdx_pairwise g),
    tb_keep_fullIdx, tb_fullIdx_length]

/-- C3: `clear_lines` removes exactly the rows in which every cell is
occupied (a row with an empty cell survives, a row with no empty cell is
removed), inserts at the top as many empty rows as were removed, and keeps
the surviving rows in their relative order. -/
theorem clear_lines_removes_exactly_full_rows (G : Game)
    (h : G.grid.length = GRID_HEIGHT) :
    (clear_lines G).grid =
      List.replicate (G.grid.countP rowFull) emptyRow ++
        G.grid.filter (fun r => !(rowFull r)) := by
  by_cases he : (fullRows G.grid).isEmpty
  · simp only [clear_lines, he, if_true]
    rw [List.isEmpty_iff, tb_fullRows_eq G.grid h] at he
    have hcount : G.grid.countP rowFull = 0 := by
      rw [← tb_fullIdx_length, he]; rfl
    have hfilter : G.grid.filter (fun r => !(rowFull r)) = G.grid := by
      apply List.filter_eq_self.mpr
      intro r hr
      have hnf := List.countP_eq_zero.mp hcount r hr
      simp only [Bool.not_eq_true']
      exact Bool.eq_false_iff.mpr fun hc => hnf (by simp [hc])
    rw [hcount, hfilter]
    simp
  · simp only [clear_lines, he, if_false, Bool.false_eq_true]
    split <;> simpa using tb_gridAfterClear_eq G.grid h

/-- Witness for C3: a board whose single full row is the bottom one. -/
theorem clear_lines_removes_exactly_full_rows_witness :
    oneFullGrid.length = GRID_HEIGHT ∧
    (clear_lines { baseGame with grid := oneFullGrid }).grid =
      List.replicate (oneFullGrid.countP rowFull) emptyRow ++
        oneFullGrid.filter (fun r => !(rowFull r)) :=
  ⟨by decide,
   clear_lines_removes_exactly_full_rows { baseGame with grid := oneFullGrid }
     (by decide)⟩

/-- C2: rotation replaces the geometry by its clockwise transform
(transpose plus row reversal); if the rotated geometry collides at offset
(0,0), kicks +1, -1, +2, -2 are tried in exactly that order and the first
non-colliding one is added to the x origin; if all fail, the geometry is
restored; the origin never changes except through a successful kick. -/
theorem rotate_piece_spec (g : Game) (p : Piece) (hp : g.current_piece = some p) :
    ∃ q : Piece, (rotate_piece g).current_piece = some q ∧
      (rotate_piece g).grid = g.grid ∧
      q.y = p.y ∧ q.shape_index = p.shape_index ∧ q.is_bomb = p.is_bomb ∧
      (check_collision g.grid { p with shape := pyRotate p.shape } 0 0 = false →
        q = { p with shape := pyRotate p.shape }) ∧
      (check_collision g.grid { p with shape := pyRotate p.shape } 0 0 = true →
        ((check_collision g.grid { p with shape := pyRotate p.shape } 1 0 = false →
            q = { p with shape := pyRotate p.shape, x := p.x + 1 }) ∧
         (check_collision g.grid { p with shape := pyRotate p.shape } 1 0 = true →
          check_collision g.grid { p with shape := pyRotate p.shape } (-1) 0 = false →
            q = { p with shape := pyRotate p.shape, x := p.x + -1 }) ∧
         (check_collision g.grid { p with shape := pyRotate p.shape } 1 0 = true →
          check_collision g.grid { p with shape := pyRotate p.shape } (-1) 0 = true →
          check_collision g.grid { p with shape := pyRotate p.shape } 2 0 = false →
            q = { p with shape := pyRotate p.shape, x := p.x + 2 }) ∧
         (check_collision g.grid { p with shape := pyRotate p.shape } 1 0 = true →
          check_collision g.grid { p with shape := pyRotate p.shape } (-1) 0 = true →
          check_collision g.grid { p with shape := pyRotate p.shape } 2 0 = true →
          check_collision g.grid { p with shape := pyRotate p.shape } (-2) 0 = false →
            q = { p with shape := pyRotate p.shape, x := p.x + -2 }) ∧
         (check_collision g.grid { p with shape := pyRotate p.shape } 1 0 = true →
          check_collision g.grid { p with shape := pyRotate p.shape } (-1) 0 = true →
          check_collision g.grid { p with shape := pyRotate p.shape } 2 0 = true →
          check_collision g.grid { p with shape := pyRotate p.shape } (-2) 0 = true →
            q = p))) := by
  obtain ⟨si, sh, px, py, ib⟩ := p
  simp only [rotate_piece, hp]
  set pr : Piece := { shape_index := si, shape := pyRotate sh, x := px, y := py, is_bomb := ib } with hpr
  by_cases h0 : check_collision g.grid pr 0 0
  · simp only [h0, if_true, kickList]
    by_cases h1 : check_collision g.grid pr 1 0
    · by_cases h2 : check_collision g.grid pr (-1) 0
      · by_cases h3 : check_collision g.grid pr 2 0
        · by_cases h4 : check_collision g.grid pr (-2) 0
          · simp [List.find?, h0, h1, h2, h3, h4]
          · simp [List.find?, h0, h1, h2, h3, h4]
        · simp [List.find?, h0, h1, h2, h3]
      · simp [List.find?, h0, h1, h2]
    · simp [List.find?, h0, h1]
  · simp [h0]

/-- Witness for C2: rotating a freshly spawned T-piece on an empty board
succeeds in place (no kick, origin unchanged). -/
theorem rotate_piece_spec_witness :
    (rotate_piece { baseGame with current_piece := some tPieceSpawn }).current_piece =
      some { tPieceSpawn with shape := pyRotate tPieceSpawn.shape } := by
  obtain ⟨q, hq, _, _, _, _, hnc, _⟩ :=
    rotate_piece_spec { baseGame with current_piece := some tPieceSpawn } tPieceSpawn rfl
  rw [hq, hnc (by decide)]

/-- C4: with no jokers, multiplier 1 and extra-line bonus 0, clearing
exactly 1 row at level 1 adds exactly 100 points, and clearing exactly
4 rows at level 2 adds exactly 1600 points. -/
theorem clear_lines_score_scenarios (G : Game)
    (hj : G.jokers = []) (hm : G.score_multiplier = 1) (he : G.extra_lines = 0) :
    (G.level = 1 → (fullRows G.grid).length = 1 →
      (clear_lines G).score = G.score + 100) ∧
    (G.level = 2 → (fullRows G.grid).length = 4 →
      (clear_lines G).score = G.score + 1600) := by
  constructor
  · intro hl hn
    have hne : (fullRows G.grid).isEmpty = false := by
      cases hys : fullRows G.grid with
      | nil => rw [hys] at hn; simp at hn
      | cons a t => simp
    simp only [clear_lines, hne, Bool.false_eq_true, if_false, hj, hm, he, hl, hn]
    have htr : pyTrunc ((((lineScoreTable.getD 1 0 : Nat) : ℚ) * ((1 : Nat) : ℚ)) * 1 +
        ((0 : Nat) : ℚ) * 100) = 100 := by
      have : ((((lineScoreTable.getD 1 0 : Nat) : ℚ) * ((1 : Nat) : ℚ)) * 1 +
          ((0 : Nat) : ℚ) * 100) = ((100 : ℤ) : ℚ) := by
        norm_num [lineScoreTable]
      rw [this]
      unfold pyTrunc
      rw [if_pos (by norm_num), Int.floor_intCast]
    split <;> simp only [List.foldl_nil] <;> rw [htr] <;> norm_num
  · intro hl hn
    have hne : (fullRows G.grid).isEmpty = false := by
      cases hys : fullRows G.grid with
      | nil => rw [hys] at hn; simp at hn
      | cons a t => simp
    simp only [clear_lines, hne, Bool.false_eq_true, if_false, hj, hm, he, hl, hn]
    have htr : pyTrunc ((((lineScoreTable.getD 4 0 : Nat) : ℚ) * ((2 : Nat) : ℚ)) * 1 +
        ((0 : Nat) : ℚ) * 100) = 1600 := by
      have : ((((lineScoreTable.getD 4 0 : Nat) : ℚ) * ((2 : Nat) : ℚ)) * 1 +
          ((0 : Nat) : ℚ) * 100) = ((1600 : ℤ) : ℚ) := by
        norm_num [lineScoreTable]
      rw [this]
      unfold pyTrunc
      rw [if_pos (by norm_num), Int.floor_intCast]
    split <;> simp only [List.foldl_nil] <;> rw [htr] <;> norm_num

/-- Witness for C4: clearing the single full bottom row of `oneFullGrid`
at level 1 with no modifiers adds exactly 100 points. -/
theorem clear_lines_score_scenarios_witness :
    (clear_lines { baseGame with grid := oneFullGrid }).score = (0 : ℚ) + 100 :=
  (clear_lines_score_scenarios { baseGame with grid := oneFullGrid }
    rfl rfl rfl).1 rfl (by decide)

/-- C5: a clearing `clear_lines` call adds the cleared count to
`lines_cleared` and then runs the level-up check exactly once: when
`lines_cleared >= level * 10` holds at that moment, the level rises by
exactly 1 and `fall_speed` drops 50ms floored at 100ms; otherwise both are
unchanged; in all cases at most one level-up happens per call. -/
theorem clear_lines_single_level_up (G : Game) (h : fullRows G.grid ≠ []) :
    ((clear_lines G).lines_cleared = G.lines_cleared + (fullRows G.grid).length) ∧
    (G.level * 10 ≤ G.lines_cleared + (fullRows G.grid).length →
      (clear_lines G).level = G.level + 1 ∧
      (clear_lines G).fall_speed = max 100 (G.fall_speed - 50)) ∧
    (G.lines_cleared + (fullRows G.grid).length < G.level * 10 →
      (clear_lines G).level = G.level ∧ (clear_lines G).fall_speed = G.fall_speed) ∧
    (clear_lines G).level ≤ G.level + 1 := by
  have hne : (fullRows G.grid).isEmpty = false := by
    cases hys : fullRows G.grid with
    | nil => exact absurd hys h
    | cons a t => simp
  simp only [clear_lines, hne, Bool.false_eq_true, if_false]
  by_cases hc : G.level * 10 ≤ G.lines_cleared + (fullRows G.grid).length
  · rw [if_pos hc]
    exact ⟨rfl, fun _ => ⟨rfl, rfl⟩, fun hlt => absurd hc (by omega), Nat.le_refl _⟩
  · rw [if_neg hc]
    exact ⟨rfl, fun hge => absurd hge hc, fun _ => ⟨rfl, rfl⟩, Nat.le_succ _⟩

/-- Witness for C5: clearing one row with `lines_cleared = 0` at level 1
leaves the level at 1 and the fall interval unchanged. -/
theorem clear_lines_single_level_up_witness :
    (clear_lines { baseGame with grid := oneFullGrid }).lines_cleared = 0 + 1 ∧
    (clear_lines { baseGame with grid := oneFullGrid }).level = 1 ∧
    (clear_lines { baseGame with grid := oneFullGrid }).fall_speed = 500 := by
  obtain ⟨h1, _, h3, _⟩ :=
    clear_lines_single_level_up { baseGame with grid := oneFullGrid } (by decide)
  refine ⟨by rw [h1]; decide, ?_, ?_⟩
  · exact (h3 (by decide)).1
  · exact (h3 (by decide)).2

/-! ## Deck draws -/

theorem tb_getD_mod_mem (l : List Nat) (i : Nat) (h : l ≠ []) :
    l.getD (i % l.length) 0 ∈ l := by
  have hlen : 0 < l.length := List.length_pos.mpr h
  have hm : i % l.length < l.length := Nat.mod_lt _ hlen
  rw [List.getD_eq_getElem l 0 hm]
  exact List.getElem_mem hm

/-- C8: drawing from the deck never fails: an empty deck is first refilled
with exactly one copy of each of the 7 catalog shapes, a non-empty deck is
used as is, and the drawn shape is always an element of that deck. -/
theorem deck_draw_never_fails (deck : List Nat) (pk : Nat) :
    (draw_checked deck pk).isSome = true ∧
    draw_checked deck pk = some (get_random_piece_from_deck deck pk) ∧
    (deck = [] →
      (get_random_piece_from_deck deck pk).2 = List.range SHAPES.length ∧
      ∀ s, s < SHAPES.length → (get_random_piece_from_deck deck pk).2.count s = 1) ∧
    (deck ≠ [] → (get_random_piece_from_deck deck pk).2 = deck) ∧
    (get_random_piece_from_deck deck pk).1 ∈ (get_random_piece_from_deck deck pk).2 := by
  cases deck with
  | nil =>
    refine ⟨rfl, rfl, fun _ => ⟨rfl, fun s hs => ?_⟩, fun h => absurd rfl h, ?_⟩
    · exact List.count_eq_one_of_mem (List.nodup_range _) (List.mem_range.mpr hs)
    · exact tb_getD_mod_mem (List.range SHAPES.length) pk (by decide)
  | cons a t =>
    refine ⟨rfl, rfl, fun h => absurd h (by simp), fun _ => rfl, ?_⟩
    exact tb_getD_mod_mem (a :: t) pk (by simp)

/-- Witness for C8 at the empty deck. -/
theorem deck_draw_never_fails_witness :
    (draw_checked [] 11).isSome = true ∧
    (get_random_piece_from_deck [] 11).2 = List.range SHAPES.length :=
  ⟨(deck_draw_never_fails [] 11).1,
   ((deck_draw_never_fails [] 11).2.2.1 rfl).1⟩

/-- C7: hold is a no-op unless the upgrade is owned and `can_hold` is set;
an empty slot stores the shape and spawns a fresh piece; an occupied slot
swaps the shape ids in place, resetting origin and geometry; both effective
paths clear `can_hold`, so a second hold before any lock is a no-op. -/
theorem hold_piece_spec (G : Game) (p : Piece) (br : Bool) (pk : Nat)
    (hp : G.current_piece = some p) :
    ((G.hold_enabled = false ∨ G.can_hold = false) → hold_piece G br pk = G) ∧
    (G.hold_enabled = true → G.can_hold = true →
      (G.held_piece = none →
        (hold_piece G br pk).held_piece = some p.shape_index ∧
        (hold_piece G br pk).can_hold = false ∧
        (hold_piece G br pk).grid = G.grid ∧
        ∃ q, (hold_piece G br pk).current_piece = some q ∧
          q.shape_index = G.next_piece_index ∧
          q.shape = SHAPES.getD G.next_piece_index [] ∧
          q.x = ((GRID_WIDTH / 2 - 1 : Nat) : Int) ∧ q.y = 0) ∧
      (∀ h0, G.held_piece = some h0 →
        hold_piece G br pk =
          { G with held_piece := some p.shape_index,
                   current_piece := some { p with shape_index := h0,
                                                  shape := SHAPES.getD h0 [],
                                                  x := ((GRID_WIDTH / 2 - 1 : Nat) : Int),
                                                  y := 0 },
                   can_hold := false }) ∧
      (∀ br2 pk2, hold_piece (hold_piece G br pk) br2 pk2 = hold_piece G br pk)) := by
  constructor
  · rintro (hh | hch)
    · simp [hold_piece, hp, hh]
    · simp [hold_piece, hp, hch]
  · intro hh hch
    refine ⟨?_, ?_, ?_⟩
    · intro hheld
      simp only [hold_piece, hp, hh, hch, Bool.and_self, if_true, hheld, spawn_piece]
      split <;> simp
    · intro h0 hheld
      simp [hold_piece, hp, hh, hch, hheld]
    · intro br2 pk2
      cases hheld : G.held_piece with
      | none =>
        simp only [hold_piece, hp, hh, hch, Bool.and_self, if_true, hheld, spawn_piece]
        split <;> simp [hold_piece]
      | some h0 =>
        simp only [hold_piece, hp, hh, hch, Bool.and_self, if_true, hheld]
        simp [hold_piece]

/-- Witness for C7: holding with an empty slot, then holding again. -/
theorem hold_piece_spec_witness :
    (hold_piece holdTestGame false 0).held_piece = some tPieceSpawn.shape_index ∧
    (hold_piece holdTestGame false 0).can_hold = false ∧
    hold_piece (hold_piece holdTestGame false 0) true 3 =
      hold_piece holdTestGame false 0 := by
  obtain ⟨_, h2⟩ := hold_piece_spec holdTestGame tPieceSpawn false 0 rfl
  obtain ⟨he, _, hnoop⟩ := h2 rfl rfl
  obtain ⟨hh, hc, _, _⟩ := he rfl
  exact ⟨hh, hc, hnoop true 3⟩

/-- C1 (code-bug evidence): in a playing state whose active piece rests on
the floor, the gravity `move(0, 1)` fails, and the gravity tick of `update`
is a fixed point of the state — iterated gravity ticks never lock the
piece, never change the board and never change the piece. -/
theorem gravity_blocked_never_locks :
    (move blockedGame 0 1).2 = false ∧
    ∀ n : Nat, (fun s => update s 500)^[n] blockedGame = blockedGame := by
  constructor
  · decide
  · intro n
    induction n with
    | zero => rfl
    | succ k ih =>
      rw [Function.iterate_succ_apply', ih]
      decide

/-! ## Cell-level lemmas for `setCell` and the bomb / lock loops -/

theorem tb_getD_set_eq {α : Type} :
    ∀ (l : List α) (i : Nat) (a d : α), i < l.length → (l.set i a).getD i d = a := by
  intro l
  induction l with
  | nil => intro i a d h; simp at h
  | cons b t ih =>
    intro i a d h
    cases i with
    | zero => rfl
    | succ n =>
      have : (b :: t).set (n + 1) a = b :: t.set n a := rfl
      rw [this, List.getD_cons_succ]
      exact ih n a d (by simpa using h)

theorem tb_getD_set_ne {α : Type} :
    ∀ (l : List α) (i j : Nat) (a d : α), i ≠ j → (l.set i a).getD j d = l.getD j d := by
  intro l
  induction l with
  | nil => intro i j a d _; rfl
  | cons b t ih =>
    intro i j a d hij
    cases i with
    | zero =>
      cases j with
      | zero => exact absurd rfl hij
      | succ m => rfl
    | succ n =>
      cases j with
      | zero => rfl
      | succ m =>
        have : (b :: t).set (n + 1) a = b :: t.set n a := rfl
        rw [this, List.getD_cons_succ, List.getD_cons_succ]
        exact ih n m a d (by omega)

theorem tb_dims_setCell (g : Grid) (x y v : Nat) (h : gridDims g) :
    gridDims (setCell g x y v) := by
  obtain ⟨hlen, hrows⟩ := h
  constructor
  · rw [setCell, List.length_set, hlen]
  · intro r hr
    rcases List.mem_or_eq_of_mem_set hr with hmem | heq
    · exact hrows r hmem
    · subst heq
      by_cases hy : y < g.length
      · rw [List.length_set]
        exact hrows _ (List.getD_eq_getElem g [] hy ▸ List.getElem_mem hy)
      · exfalso
        rw [setCell, List.set_eq_of_length_le (by omega)] at hr
        rw [List.getD_eq_default g [] (by omega)] at hr
        have := hrows _ hr
        simp [GRID_WIDTH] at this

theorem tb_cellAt_setCell (g : Grid) (hd : gridDims g) (x y x' y' v : Nat)
    (hx : x < GRID_WIDTH) (hy : y < GRID_HEIGHT)
    (hx' : x' < GRID_WIDTH) (hy' : y' < GRID_HEIGHT) :
    cellAt (setCell g x y v) x' y' =
      if x = x' ∧ y = y' then v else cellAt g x' y' := by
  obtain ⟨hlen, hrows⟩ := hd
  have hyg : y < g.length := by rw [hlen]; exact hy
  have hrowlen : (g.getD y []).length = GRID_WIDTH :=
    hrows _ (List.getD_eq_getElem g [] hyg ▸ List.getElem_mem hyg)
  have hxrow : x < (g.getD y []).length := by rw [hrowlen]; exact hx
  by_cases hyy : y = y'
  · subst hyy
    by_cases hxx : x = x'
    · subst hxx
      have hv : cellAt (setCell g x y v) x y = v := by
        rw [cellAt, setCell, tb_getD_set_eq g y _ [] hyg, tb_getD_set_eq _ x v 0 hxrow]
      rw [hv, if_pos ⟨rfl, rfl⟩]
    · have hv : cellAt (setCell g x y v) x' y = (g.getD y []).getD x' 0 := by
        rw [cellAt, setCell, tb_getD_set_eq g y _ [] hyg, tb_getD_set_ne _ x x' v 0 hxx]
      rw [hv, if_neg (by tauto)]
      rfl
  · have hv : cellAt (setCell g x y v) x' y' = cellAt g x' y' := by
      rw [cellAt, setCell, tb_getD_set_ne g y y' _ [] hyy]
      rfl
    rw [hv, if_neg (by tauto)]

theorem tb_explodeGrid_eq_steps (g : Grid) (bx byy : Int) :
    explodeGrid g bx byy = explodeSteps bx byy bombOffsets g := rfl

theorem tb_dims_explodeSteps (bx byy : Int) :
    ∀ (L : List (Int × Int)) (g : Grid), gridDims g →
      gridDims (explodeSteps bx byy L g) := by
  intro L
  induction L with
  | nil => intro g h; exact h
  | cons d L ih =>
    intro g h
    have hun : explodeSteps bx byy (d :: L) g =
        explodeSteps bx byy L
          (if 0 ≤ bx + d.1 ∧ bx + d.1 < (GRID_WIDTH : Int) ∧
              0 ≤ byy + d.2 ∧ byy + d.2 < (GRID_HEIGHT : Int) then
            setCell g (bx + d.1).toNat (byy + d.2).toNat 0
          else g) := rfl
    rw [hun]
    apply ih
    split
    · exact tb_dims_setCell g _ _ 0 h
    · exact h

theorem tb_cellAt_explodeSteps (bx byy : Int) :
    ∀ (L : List (Int × Int)) (g : Grid), gridDims g →
      ∀ (x y : Nat), x < GRID_WIDTH → y < GRID_HEIGHT →
      cellAt (explodeSteps bx byy L g) x y =
        if ∃ d ∈ L, bx + d.1 = (x : Int) ∧ byy + d.2 = (y : Int) then 0
        else cellAt g x y := by
  intro L
  induction L with
  | nil =>
    intro g hd x y hx hy
    simp [explodeSteps]
  | cons d L ih =>
    intro g hd x y hx hy
    have hun : explodeSteps bx byy (d :: L) g =
        explodeSteps bx byy L
          (if 0 ≤ bx + d.1 ∧ bx + d.1 < (GRID_WIDTH : Int) ∧
              0 ≤ byy + d.2 ∧ byy + d.2 < (GRID_HEIGHT : Int) then
            setCell g (bx + d.1).toNat (byy + d.2).toNat 0
          else g) := rfl
    by_cases hin : 0 ≤ bx + d.1 ∧ bx + d.1 < (GRID_WIDTH : Int) ∧
        0 ≤ byy + d.2 ∧ byy + d.2 < (GRID_HEIGHT : Int)
    · obtain ⟨h1, h2, h3, h4⟩ := hin
      have hb1 : (bx + d.1).toNat < GRID_WIDTH := (Int.toNat_lt h1).mpr h2
      have hb2 : (byy + d.2).toNat < GRID_HEIGHT := (Int.toNat_lt h3).mpr h4
      rw [hun, if_pos ⟨h1, h2, h3, h4⟩,
        ih _ (tb_dims_setCell g _ _ 0 hd) x y hx hy,
        tb_cellAt_setCell g hd _ _ x y 0 hb1 hb2 hx hy]
      have hiff : ((bx + d.1).toNat = x ∧ (byy + d.2).toNat = y) ↔
          (bx + d.1 = (x : Int) ∧ byy + d.2 = (y : Int)) := by omega
      by_cases hex : ∃ e ∈ L, bx + e.1 = (x : Int) ∧ byy + e.2 = (y : Int)
      · rw [if_pos hex]
        obtain ⟨e, he, hh⟩ := hex
        rw [if_pos ⟨e, List.mem_cons_of_mem d he, hh⟩]
      · rw [if_neg hex]
        by_cases hhit : bx + d.1 = (x : Int) ∧ byy + d.2 = (y : Int)
        · rw [if_pos (hiff.mpr hhit), if_pos ⟨d, List.mem_cons_self d L, hhit⟩]
        · rw [if_neg (fun h => hhit (hiff.mp h)), if_neg ?_]
          rintro ⟨e, he, hh⟩
          rcases List.mem_cons.mp he with heq | he'
          · exact hhit (heq ▸ hh)
          · exact hex ⟨e, he', hh⟩
    · rw [hun, if_neg hin, ih g hd x y hx hy]
      have hiff : (∃ e ∈ d :: L, bx + e.1 = (x : Int) ∧ byy + e.2 = (y : Int)) ↔
          (∃ e ∈ L, bx + e.1 = (x : Int) ∧ byy + e.2 = (y : Int)) := by
        constructor
        · rintro ⟨e, he, hh⟩
          rcases List.mem_cons.mp he with heq | he'
          · exfalso
            apply hin
            subst heq
            obtain ⟨hh1, hh2⟩ := hh
            refine ⟨by omega, by rw [hh1]; exact_mod_cast Nat.cast_lt.mpr hx, by omega, ?_⟩
            rw [hh2]
            exact_mod_cast Nat.cast_lt.mpr hy
          · exact ⟨e, he', hh⟩
        · rintro ⟨e, he, hh⟩
          exact ⟨e, List.mem_cons_of_mem d he, hh⟩
      simp only [hiff]

theorem tb_placePiece_eq_steps (g : Grid) (p : Piece) :
    placePiece g p = placeSteps (p.shape_index + 1) p.get_cells g := rfl

theorem tb_dims_placeSteps (v : Nat) :
    ∀ (L : List (Int × Int)) (g : Grid), gridDims g → gridDims (placeSteps v L g) := by
  intro L
  induction L with
  | nil => intro g h; exact h
  | cons c L ih =>
    intro g h
    have hun : placeSteps v (c :: L) g =
        placeSteps v L (if 0 ≤ c.2 then setCell g c.1.toNat c.2.toNat v else g) := rfl
    rw [hun]
    apply ih
    split
    · exact tb_dims_setCell g _ _ v h
    · exact h

/-- C6: a special piece's lock runs the bomb effect after writing the piece
and before line-clear detection; the bomb adds exactly
`200 * score_multiplier` to the score, and empties exactly the in-bounds
cells of the 3x3 neighborhood centered on the piece's origin. -/
theorem bomb_lock_spec (G : Game) (p : Piece) (br : Bool) (pk : Nat)
    (hp : G.current_piece = some p) (hb : p.is_bomb = true)
    (hd : gridDims G.grid) :
    lock_piece G br pk =
      spawn_piece
        (clear_lines (explode_bomb { G with grid := placePiece G.grid p } p.x p.y)) br pk ∧
    (explode_bomb { G with grid := placePiece G.grid p } p.x p.y).score =
      G.score + 200 * G.score_multiplier ∧
    (∀ x y : Nat, x < GRID_WIDTH → y < GRID_HEIGHT →
      cellAt (explodeGrid (placePiece G.grid p) p.x p.y) x y =
        if p.x - 1 ≤ (x : Int) ∧ (x : Int) ≤ p.x + 1 ∧
           p.y - 1 ≤ (y : Int) ∧ (y : Int) ≤ p.y + 1
        then 0 else cellAt (placePiece G.grid p) x y) := by
  refine ⟨?_, rfl, ?_⟩
  · simp [lock_piece, hp, hb]
  · intro x y hx hy
    have hdp : gridDims (placePiece G.grid p) := by
      rw [tb_placePiece_eq_steps]
      exact tb_dims_placeSteps _ _ G.grid hd
    rw [tb_explodeGrid_eq_steps,
      tb_cellAt_explodeSteps p.x p.y bombOffsets _ hdp x y hx hy]
    have hiff : (∃ d ∈ bombOffsets, p.x + d.1 = (x : Int) ∧ p.y + d.2 = (y : Int)) ↔
        (p.x - 1 ≤ (x : Int) ∧ (x : Int) ≤ p.x + 1 ∧
         p.y - 1 ≤ (y : Int) ∧ (y : Int) ≤ p.y + 1) := by
      simp only [bombOffsets, List.mem_cons, List.not_mem_nil, or_false]
      constructor
      · rintro ⟨d, hmem, h1, h2⟩
        rcases hmem with h | h | h | h | h | h | h | h | h <;> subst h <;>
          constructor <;> omega
      · rintro ⟨hx1, hx2, hy1, hy2⟩
        refine ⟨((x : Int) - p.x, (y : Int) - p.y), ?_, by omega, by omega⟩
        have hdx : (x : Int) - p.x = -1 ∨ (x : Int) - p.x = 0 ∨ (x : Int) - p.x = 1 := by omega
        have hdy : (y : Int) - p.y = -1 ∨ (y : Int) - p.y = 0 ∨ (y : Int) - p.y = 1 := by omega
        rcases hdx with h | h | h <;> rcases hdy with h' | h' | h' <;>
          rw [Prod.mk.injEq] <;> simp [h, h']
    rw [if_congr hiff rfl rfl]

/-- Witness for C6: a bomb O-piece with origin (5, 5) locking on a fully
occupied board: the bonus is added and the neighborhood cells empty. -/
theorem bomb_lock_spec_witness :
    (explode_bomb { bombTestGame with grid := placePiece bombTestGame.grid bombPiece }
        bombPiece.x bombPiece.y).score =
      bombTestGame.score + 200 * bombTestGame.score_multiplier ∧
    cellAt (explodeGrid (placePiece bombTestGame.grid bombPiece)
        bombPiece.x bombPiece.y) 4 4 = 0 ∧
    cellAt (explodeGrid (placePiece bombTestGame.grid bombPiece)
        bombPiece.x bombPiece.y) 7 5 =
      cellAt (placePiece bombTestGame.grid bombPiece) 7 5 := by
  obtain ⟨_, h2, h3⟩ := bomb_lock_spec bombTestGame bombPiece false 0 rfl rfl
    ⟨by decide, by decide⟩
  refine ⟨h2, ?_, ?_⟩
  · rw [h3 4 4 (by decide) (by decide), if_pos (by decide)]
  · rw [h3 7 5 (by decide) (by decide), if_neg (by decide)]

/-! ## Board-invariant preservation -/

theorem tb_boardInv_setCell (g : Grid) (x y v : Nat) (hg : boardInv g)
    (hv : v = 0 ∨ ∃ s, s < SHAPES.length ∧ v = s + 1) :
    boardInv (setCell g x y v) := by
  obtain ⟨hd, hcells⟩ := hg
  refine ⟨tb_dims_setCell g x y v hd, ?_⟩
  intro r hr c hc
  rcases List.mem_or_eq_of_mem_set hr with hmem | heq
  · exact hcells r hmem c hc
  · subst heq
    rcases List.mem_or_eq_of_mem_set hc with hcm | hceq
    · by_cases hy : y < g.length
      · exact hcells _ (List.getD_eq_getElem g [] hy ▸ List.getElem_mem hy) c hcm
      · rw [List.getD_eq_default g [] (by omega)] at hcm
        exact absurd hcm (List.not_mem_nil c)
    · subst hceq
      exact hv

theorem tb_boardInv_placeSteps (v : Nat)
    (hv : v = 0 ∨ ∃ s, s < SHAPES.length ∧ v = s + 1) :
    ∀ (L : List (Int × Int)) (g : Grid), boardInv g → boardInv (placeSteps v L g) := by
  intro L
  induction L with
  | nil => intro g h; exact h
  | cons c L ih =>
    intro g h
    have hun : placeSteps v (c :: L) g =
        placeSteps v L (if 0 ≤ c.2 then setCell g c.1.toNat c.2.toNat v else g) := rfl
    rw [hun]
    apply ih
    split
    · exact tb_boardInv_setCell g _ _ v h hv
    · exact h

theorem tb_boardInv_explodeSteps (bx byy : Int) :
    ∀ (L : List (Int × Int)) (g : Grid), boardInv g → boardInv (explodeSteps bx byy L g) := by
  intro L
  induction L with
  | nil => intro g h; exact h
  | cons d L ih =>
    intro g h
    have hun : explodeSteps bx byy (d :: L) g =
        explodeSteps bx byy L
          (if 0 ≤ bx + d.1 ∧ bx + d.1 < (GRID_WIDTH : Int) ∧
              0 ≤ byy + d.2 ∧ byy + d.2 < (GRID_HEIGHT : Int) then
            setCell g (bx + d.1).toNat (byy + d.2).toNat 0
          else g) := rfl
    rw [hun]
    apply ih
    split
    · exact tb_boardInv_setCell g _ _ 0 h (Or.inl rfl)
    · exact h

theorem tb_boardInv_clear (g : Grid) (hg : boardInv g) :
    boardInv (gridAfterClear g) := by
  obtain ⟨⟨hlen, hrows⟩, hcells⟩ := hg
  rw [tb_gridAfterClear_eq g hlen]
  have hflen : (g.filter (fun r => !(rowFull r))).length =
      g.countP (fun r => !(rowFull r)) := (List.countP_eq_length_filter _ g).symm
  have hsplit : g.length = g.countP rowFull + g.countP (fun r => !(rowFull r)) := by
    have := List.length_eq_countP_add_countP rowFull g
    rw [this]
    congr 1
    apply List.countP_congr
    intro r _
    simp
  refine ⟨⟨?_, ?_⟩, ?_⟩
  · rw [List.length_append, List.length_replicate, hflen]
    omega
  · intro r hr
    rcases List.mem_append.mp hr with hrep | hfil
    · rw [List.eq_of_mem_replicate hrep]
      simp [emptyRow]
    · exact hrows r (List.mem_of_mem_filter hfil)
  · intro r hr c hc
    rcases List.mem_append.mp hr with hrep | hfil
    · rw [List.eq_of_mem_replicate hrep] at hc
      exact Or.inl (List.eq_of_mem_replicate hc)
    · exact hcells r (List.mem_of_mem_filter hfil) c hc

/-- C10: lock's grid writes, the bomb's area clear, and line compaction all
preserve the board invariant: exactly 20 rows of 10 cells, every cell empty
(0) or `s + 1` for a catalog shape index `s < 7`. -/
theorem board_ops_preserve_invariant (g : Grid) (p : Piece) (bx byy : Int)
    (hg : boardInv g) :
    (p.shape_index < SHAPES.length → boardInv (placePiece g p)) ∧
    boardInv (explodeGrid g bx byy) ∧
    boardInv (gridAfterClear g) := by
  refine ⟨?_, ?_, tb_boardInv_clear g hg⟩
  · intro hs
    rw [tb_placePiece_eq_steps]
    exact tb_boardInv_placeSteps _ (Or.inr ⟨p.shape_index, hs, rfl⟩) _ g hg
  · rw [tb_explodeGrid_eq_steps]
    exact tb_boardInv_explodeSteps bx byy bombOffsets g hg

/-- Witness for C10: the empty starting board with a locking T-piece and a
bomb centered at (5, 5). -/
theorem board_ops_preserve_invariant_witness :
    boardInv (placePiece emptyGrid tPieceSpawn) ∧
    boardInv (explodeGrid emptyGrid 5 5) ∧
    boardInv (gridAfterClear emptyGrid) := by
  obtain ⟨h1, h2, h3⟩ :=
    board_ops_preserve_invariant emptyGrid tPieceSpawn 5 5
      ⟨⟨by decide, by decide⟩, by decide⟩
  exact ⟨h1 (by decide), h2, h3⟩

/-! ## Rows touched by a locking piece -/

theorem tb_rowCells_y :
    ∀ (r : List Nat) (x0 y : Int) (ci : Nat) (c : Int × Int),
      c ∈ rowCells x0 y ci r → c.2 = y := by
  intro r
  induction r with
  | nil => intro x0 y ci c h; exact absurd h (List.not_mem_nil c)
  | cons c0 cs ih =>
    intro x0 y ci c h
    rw [rowCells, List.mem_append] at h
    rcases h with h | h
    · split at h
      · rcases List.mem_singleton.mp h with rfl
        rfl
      · exact absurd h (List.not_mem_nil c)
    · exact ih x0 y (ci + 1) c h

theorem tb_shapeCells_y :
    ∀ (s : List (List Nat)) (x0 y0 : Int) (ri : Nat) (c : Int × Int),
      c ∈ shapeCells x0 y0 ri s →
      ∃ j, j < s.length ∧ c.2 = y0 + ((ri + j : Nat) : Int) := by
  intro s
  induction s with
  | nil => intro x0 y0 ri c h; exact absurd h (List.not_mem_nil c)
  | cons r rs ih =>
    intro x0 y0 ri c h
    rw [shapeCells, List.mem_append] at h
    rcases h with h | h
    · refine ⟨0, by simp, ?_⟩
      have := tb_rowCells_y r x0 (y0 + (ri : Int)) 0 c h
      rw [this]
      norm_num
    · obtain ⟨j, hj, hc⟩ := ih x0 y0 (ri + 1) c h
      refine ⟨j + 1, by simpa using hj, ?_⟩
      rw [hc]
      congr 1
      push_cast
      ring

theorem tb_get_cells_row (p : Piece) (c : Int × Int) (h : c ∈ p.get_cells) :
    ∃ j, j < p.shape.length ∧ c.2 = p.y + (j : Int) := by
  obtain ⟨j, hj, hc⟩ := tb_shapeCells_y p.shape p.x p.y 0 c h
  exact ⟨j, hj, by simpa using hc⟩

theorem tb_placeSteps_getD (v : Nat) :
    ∀ (L : List (Int × Int)) (g : Grid) (y : Nat),
      (∀ c ∈ L, 0 ≤ c.2 → (c.2).toNat ≠ y) →
      (placeSteps v L g).getD y [] = g.getD y [] := by
  intro L
  induction L with
  | nil => intro g y _; rfl
  | cons c L ih =>
    intro g y h
    have hun : placeSteps v (c :: L) g =
        placeSteps v L (if 0 ≤ c.2 then setCell g c.1.toNat c.2.toNat v else g) := rfl
    rw [hun, ih _ y (fun c' hc' => h c' (List.mem_cons_of_mem c hc'))]
    split
    · rename_i hpos
      rw [setCell, tb_getD_set_ne g _ y _ [] (h c (List.mem_cons_self c L) hpos)]
    · rfl

theorem tb_row_mem (g : Grid) (hlen : g.length = GRID_HEIGHT) (y : Nat)
    (hy : y < GRID_HEIGHT) : g.getD y [] ∈ g := by
  have hyg : y < g.length := by rw [hlen]; exact hy
  rw [List.getD_eq_getElem g [] hyg]
  exact List.getElem_mem hyg

theorem tb_fullRows_nodup (g : Grid) : (fullRows g).Nodup :=
  (List.nodup_range _).filter _

theorem tb_touchedRows_length (p : Piece) :
    (touchedRows p).length = p.shape.length := by
  rw [touchedRows, List.length_map, List.length_range]

theorem tb_fullRows_place_sub (g : Grid) (p : Piece)
    (hlen : g.length = GRID_HEIGHT) (hnf : noFullRow g) :
    ∀ y ∈ fullRows (placePiece g p), y ∈ touchedRows p := by
  intro y hy
  rw [fullRows, List.mem_filter, List.mem_range] at hy
  obtain ⟨hy20, hfull⟩ := hy
  by_contra hyt
  have hrow : (placePiece g p).getD y [] = g.getD y [] := by
    rw [tb_placePiece_eq_steps]
    apply tb_placeSteps_getD
    intro c hc hcpos heq
    apply hyt
    obtain ⟨j, hj, hcj⟩ := tb_get_cells_row p c hc
    rw [touchedRows]
    apply List.mem_map.mpr
    refine ⟨j, List.mem_range.mpr hj, ?_⟩
    rw [← hcj]
    exact heq
  rw [hrow] at hfull
  have hne := hnf _ (tb_row_mem g hlen y hy20)
  rw [hne] at hfull
  cases hfull

/-! ## The bomb cannot create a full row -/

theorem tb_rowFull_cellAt (g : Grid) (hd : gridDims g) (y : Nat)
    (hy : y < GRID_HEIGHT) :
    rowFull (g.getD y []) = true ↔ ∀ x, x < GRID_WIDTH → cellAt g x y ≠ 0 := by
  obtain ⟨hlen, hrows⟩ := hd
  have hmem := tb_row_mem g hlen y hy
  have hrlen : (g.getD y []).length = GRID_WIDTH := hrows _ hmem
  rw [rowFull, List.all_eq_true]
  constructor
  · intro h x hx
    have hxr : x < (g.getD y []).length := by rw [hrlen]; exact hx
    have hm := h _ (List.getD_eq_getElem (g.getD y []) 0 hxr ▸ List.getElem_mem hxr)
    rw [cellAt]
    simpa using hm
  · intro h c hc
    rw [List.mem_iff_getElem] at hc
    obtain ⟨x, hxr, hcx⟩ := hc
    have hx10 : x < GRID_WIDTH := by rw [← hrlen]; exact hxr
    have hcc := h x hx10
    rw [cellAt, List.getD_eq_getElem _ 0 hxr, hcx] at hcc
    simpa using hcc

theorem tb_explode_row_full (g : Grid) (hd : gridDims g) (bx byy : Int)
    (y : Nat) (hy : y < GRID_HEIGHT)
    (h : rowFull ((explodeGrid g bx byy).getD y []) = true) :
    rowFull (g.getD y []) = true := by
  have hd2 : gridDims (explodeGrid g bx byy) := by
    rw [tb_explodeGrid_eq_steps]
    exact tb_dims_explodeSteps bx byy bombOffsets g hd
  rw [tb_rowFull_cellAt _ hd2 y hy] at h
  rw [tb_rowFull_cellAt g hd y hy]
  intro x hx hc0
  have hcc := h x hx
  rw [tb_explodeGrid_eq_steps, tb_cellAt_explodeSteps bx byy bombOffsets g hd x y hx hy] at hcc
  by_cases hcond : ∃ d ∈ bombOffsets, bx + d.1 = (x : Int) ∧ byy + d.2 = (y : Int)
  · rw [if_pos hcond] at hcc
    exact hcc rfl
  · rw [if_neg hcond] at hcc
    exact hcc hc0

theorem tb_fullRows_explode_sub (g : Grid) (hd : gridDims g) (bx byy : Int) :
    ∀ y ∈ fullRows (explodeGrid g bx byy), y ∈ fullRows g := by
  intro y hy
  rw [fullRows, List.mem_filter, List.mem_range] at hy
  exact List.mem_filter.mpr
    ⟨List.mem_range.mpr hy.1, tb_explode_row_full g hd bx byy y hy.1 hy.2⟩

/-! ## Catalog-derived shapes have at most four rows -/

theorem tb_foldl_min_le :
    ∀ (l : List (List Nat)) (a : Nat),
      l.foldl (fun acc r => min acc r.length) a ≤ a := by
  intro l
  induction l with
  | nil => intro a; exact Nat.le_refl a
  | cons r t ih =>
    intro a
    calc t.foldl (fun acc r => min acc r.length) (min a r.length) ≤ min a r.length := ih _
    _ ≤ a := Nat.min_le_left _ _

theorem tb_pyZip_dims (rows : List (List Nat)) (hr : ∀ r ∈ rows, r.length ≤ 4)
    (hl : rows.length ≤ 4) :
    (pyZip rows).length ≤ 4 ∧ ∀ r ∈ pyZip rows, r.length ≤ 4 := by
  cases rows with
  | nil => simp [pyZip]
  | cons r0 rest =>
    constructor
    · have h1 : (pyZip (r0 :: rest)).length =
          rest.foldl (fun acc r => min acc r.length) r0.length := by
        simp [pyZip]
      rw [h1]
      calc rest.foldl (fun acc r => min acc r.length) r0.length ≤ r0.length :=
        tb_foldl_min_le rest r0.length
      _ ≤ 4 := hr r0 (List.mem_cons_self r0 rest)
    · intro r hr'
      simp only [pyZip, List.mem_map] at hr'
      obtain ⟨j, _, hj⟩ := hr'
      rw [← hj, List.length_map]
      exact hl

theorem tb_pyRotate_dims (s : List (List Nat)) (h1 : s.length ≤ 4)
    (h2 : ∀ r ∈ s, r.length ≤ 4) :
    (pyRotate s).length ≤ 4 ∧ ∀ r ∈ pyRotate s, r.length ≤ 4 := by
  rw [pyRotate]
  apply tb_pyZip_dims
  · intro r hr
    exact h2 r (List.mem_reverse.mp hr)
  · rw [List.length_reverse]
    exact h1

theorem tb_catalog_dims :
    ∀ i, (SHAPES.getD i []).length ≤ 4 ∧ ∀ r ∈ SHAPES.getD i [], r.length ≤ 4 := by
  intro i
  rcases i with _|_|_|_|_|_|_|n
  · exact ⟨by decide, by decide⟩
  · exact ⟨by decide, by decide⟩
  · exact ⟨by decide, by decide⟩
  · exact ⟨by decide, by decide⟩
  · exact ⟨by decide, by decide⟩
  · exact ⟨by decide, by decide⟩
  · exact ⟨by decide, by decide⟩
  · rw [List.getD_eq_default SHAPES [] (by simp [SHAPES])]
    exact ⟨by decide, by decide⟩

theorem tb_goodShape_dims :
    ∀ s, GoodShape s → s.length ≤ 4 ∧ ∀ r ∈ s, r.length ≤ 4 := by
  intro s h
  induction h with
  | base i => exact tb_catalog_dims i
  | rot s _ ih => exact tb_pyRotate_dims s ih.1 ih.2

/-! ## The engine invariant is preserved by every operation -/

theorem tb_noFull_of_fullRows_nil (g : Grid) (hlen : g.length = GRID_HEIGHT)
    (h : fullRows g = []) : noFullRow g := by
  intro r hr
  by_contra hfull
  rw [Bool.not_eq_false] at hfull
  rw [List.mem_iff_getElem] at hr
  obtain ⟨y, hyl, hry⟩ := hr
  have hy20 : y < GRID_HEIGHT := by rw [← hlen]; exact hyl
  have hmem : y ∈ fullRows g := by
    rw [fullRows]
    apply List.mem_filter.mpr
    refine ⟨List.mem_range.mpr hy20, ?_⟩
    rw [List.getD_eq_getElem g [] hyl, hry]
    exact hfull
  rw [h] at hmem
  exact absurd hmem (List.not_mem_nil y)

theorem tb_noFull_clear (g : Grid) (hlen : g.length = GRID_HEIGHT) :
    noFullRow (gridAfterClear g) := by
  rw [tb_gridAfterClear_eq g hlen]
  intro r hr
  rcases List.mem_append.mp hr with hrep | hfil
  · rw [List.eq_of_mem_replicate hrep]
    decide
  · have := List.mem_filter.mp hfil
    simpa using this.2

theorem tb_dims_clear (g : Grid) (hd : gridDims g) : gridDims (gridAfterClear g) := by
  obtain ⟨hlen, hrows⟩ := hd
  rw [tb_gridAfterClear_eq g hlen]
  constructor
  · rw [List.length_append, List.length_replicate, ← List.countP_eq_length_filter]
    have hsplit := List.length_eq_countP_add_countP rowFull g
    have hcongr : g.countP (fun a => decide (¬rowFull a = true)) =
        g.countP (fun r => !(rowFull r)) := by
      apply List.countP_congr
      intro r _
      simp
    omega
  · intro r hr
    rcases List.mem_append.mp hr with hrep | hfil
    · rw [List.eq_of_mem_replicate hrep]
      decide
    · exact hrows r (List.mem_of_mem_filter hfil)

theorem tb_clear_lines_fields (G : Game) (hd : gridDims G.grid) :
    gridDims (clear_lines G).grid ∧ noFullRow (clear_lines G).grid ∧
    (clear_lines G).current_piece = G.current_piece := by
  by_cases he : (fullRows G.grid).isEmpty
  · have hcl : clear_lines G = G := by
      simp only [clear_lines, he, if_true]
    rw [hcl]
    exact ⟨hd, tb_noFull_of_fullRows_nil G.grid hd.1 (List.isEmpty_iff.mp he), rfl⟩
  · simp only [clear_lines, he, Bool.false_eq_true, if_false]
    split <;> exact ⟨tb_dims_clear G.grid hd, tb_noFull_clear G.grid hd.1, rfl⟩

theorem tb_stateOK_spawn (G : Game) (br : Bool) (pk : Nat) (h : stateOK G) :
    stateOK (spawn_piece G br pk) := by
  obtain ⟨hd, hnf, _⟩ := h
  simp only [spawn_piece]
  split
  · refine ⟨hd, hnf, fun q hq => ?_⟩
    obtain rfl := Option.some.inj hq
    exact GoodShape.base _
  · refine ⟨hd, hnf, fun q hq => ?_⟩
    obtain rfl := Option.some.inj hq
    exact GoodShape.base _

theorem tb_stateOK_move (G : Game) (dx dy : Int) (h : stateOK G) :
    stateOK (move G dx dy).1 := by
  obtain ⟨hd, hnf, hpg⟩ := h
  cases hcp : G.current_piece with
  | none => simp only [move, hcp]; exact ⟨hd, hnf, hpg⟩
  | some p =>
    simp only [move, hcp]
    split
    · refine ⟨hd, hnf, fun q hq => ?_⟩
      obtain rfl := Option.some.inj hq
      exact hpg p hcp
    · exact ⟨hd, hnf, hpg⟩

theorem tb_stateOK_rotate (G : Game) (h : stateOK G) :
    stateOK (rotate_piece G) := by
  obtain ⟨hd, hnf, hpg⟩ := h
  cases hcp : G.current_piece with
  | none => simp only [rotate_piece, hcp]; exact ⟨hd, hnf, hpg⟩
  | some p =>
    simp only [rotate_piece, hcp]
    have hrot : GoodShape (pyRotate p.shape) := GoodShape.rot _ (hpg p hcp)
    split
    · split
      · refine ⟨hd, hnf, fun q hq => ?_⟩
        obtain rfl := Option.some.inj hq
        exact hrot
      · refine ⟨hd, hnf, fun q hq => ?_⟩
        obtain rfl := Option.some.inj hq
        exact hpg p hcp
    · refine ⟨hd, hnf, fun q hq => ?_⟩
      obtain rfl := Option.some.inj hq
      exact hrot

theorem tb_stateOK_hold (G : Game) (br : Bool) (pk : Nat) (h : stateOK G) :
    stateOK (hold_piece G br pk) := by
  obtain ⟨hd, hnf, hpg⟩ := h
  cases hcp : G.current_piece with
  | none => simp only [hold_piece, hcp]; exact ⟨hd, hnf, hpg⟩
  | some p =>
    simp only [hold_piece, hcp]
    split
    · cases hheld : G.held_piece with
      | none =>
        simp only [hheld]
        have hsOK : stateOK (spawn_piece { G with held_piece := some p.shape_index } br pk) :=
          tb_stateOK_spawn _ br pk ⟨hd, hnf, hpg⟩
        obtain ⟨h1, h2, h3⟩ := hsOK
        exact ⟨h1, h2, fun q hq => h3 q hq⟩
      | some h0 =>
        simp only [hheld]
        refine ⟨hd, hnf, fun q hq => ?_⟩
        obtain rfl := Option.some.inj hq
        exact GoodShape.base h0
    · exact ⟨hd, hnf, hpg⟩

theorem tb_stateOK_clear_spawn (H : Game) (br : Bool) (pk : Nat)
    (hd : gridDims H.grid) (hpgH : pieceGood H) :
    stateOK (spawn_piece (clear_lines H) br pk) := by
  obtain ⟨hcd, hcn, hcpiece⟩ := tb_clear_lines_fields H hd
  apply tb_stateOK_spawn
  refine ⟨hcd, hcn, fun q hq => ?_⟩
  rw [hcpiece] at hq
  exact hpgH q hq

theorem tb_stateOK_lock (G : Game) (br : Bool) (pk : Nat) (h : stateOK G) :
    stateOK (lock_piece G br pk) := by
  obtain ⟨hd, hnf, hpg⟩ := h
  cases hcp : G.current_piece with
  | none => simp only [lock_piece, hcp]; exact ⟨hd, hnf, hpg⟩
  | some p =>
    simp only [lock_piece, hcp]
    have hdp : gridDims (placePiece G.grid p) := by
      rw [tb_placePiece_eq_steps]
      exact tb_dims_placeSteps _ _ _ hd
    apply tb_stateOK_clear_spawn
    · split
      · show gridDims (explodeGrid (placePiece G.grid p) p.x p.y)
        rw [tb_explodeGrid_eq_steps]
        exact tb_dims_explodeSteps _ _ _ _ hdp
      · exact hdp
    · intro q hq
      have hsome : some p = some q := by
        rcases hbomb : p.is_bomb with _ | _
        · rw [hbomb] at hq
          simpa using hq
        · rw [hbomb] at hq
          simpa [explode_bomb] using hq
      obtain rfl := Option.some.inj hsome
      exact hpg p hcp

theorem tb_stateOK_update (G : Game) (dt : Int) (h : stateOK G) :
    stateOK (update G dt) := by
  obtain ⟨hd, hnf, hpg⟩ := h
  simp only [update]
  split
  · cases hcp : G.current_piece with
    | none =>
      simp only [hcp]
      split
      · refine ⟨hd, hnf, fun q hq => ?_⟩
        simp at hq
      · exact ⟨hd, hnf, hpg⟩
    | some p =>
      simp only [hcp]
      have hpg' : ∀ q, some p = some q → GoodShape q.shape := by
        intro q hq
        obtain rfl := Option.some.inj hq
        exact hpg p hcp
      split
      · have hOK : stateOK { G with current_piece := some p, fall_time := G.fall_time + dt } :=
          ⟨hd, hnf, fun q hq => hpg' q hq⟩
        obtain ⟨h1, h2, h3⟩ := tb_stateOK_move _ 0 1 hOK
        split
        · exact ⟨h1, h2, fun q hq => h3 q hq⟩
        · exact ⟨h1, h2, fun q hq => h3 q hq⟩
      · split
        · exact ⟨hd, hnf, fun q hq => hpg' q hq⟩
        · exact ⟨hd, hnf, fun q hq => hpg' q hq⟩
  · exact ⟨hd, hnf, hpg⟩

theorem tb_reachable_stateOK (g : Game) (h : Reachable g) : stateOK g := by
  induction h with
  | init g hgrid hpg =>
    refine ⟨?_, ?_, hpg⟩
    · rw [hgrid]
      exact ⟨by decide, by decide⟩
    · rw [hgrid]
      intro r hr
      rw [List.eq_of_mem_replicate hr]
      decide
  | mv g dx dy _ ih => exact tb_stateOK_move g dx dy ih
  | rot g _ ih => exact tb_stateOK_rotate g ih
  | holdOp g br pk _ ih => exact tb_stateOK_hold g br pk ih
  | lockOp g br pk _ ih => exact tb_stateOK_lock g br pk ih
  | spawnOp g br pk _ ih => exact tb_stateOK_spawn g br pk ih
  | tick g dt _ ih => exact tb_stateOK_update g dt ih

/-- C9: in every reachable state, when the active piece locks, the grid
that `clear_lines` scans (after the piece's cells are written and, for a
bomb, after the area clear) has at most 4 full rows, so its count stays
below `lineScoreTable.length` and the table lookup is in bounds. -/
theorem reachable_lock_clears_at_most_four (g : Game) (p : Piece)
    (hr : Reachable g) (hp : g.current_piece = some p) :
    (fullRows (if p.is_bomb then explodeGrid (placePiece g.grid p) p.x p.y
               else placePiece g.grid p)).length ≤ 4 ∧
    (fullRows (if p.is_bomb then explodeGrid (placePiece g.grid p) p.x p.y
               else placePiece g.grid p)).length < lineScoreTable.length := by
  obtain ⟨hd, hnf, hpg⟩ := tb_reachable_stateOK g hr
  have hshape := tb_goodShape_dims p.shape (hpg p hp)
  have hdp : gridDims (placePiece g.grid p) := by
    rw [tb_placePiece_eq_steps]
    exact tb_dims_placeSteps _ _ _ hd
  have hsub : ∀ y ∈ fullRows (if p.is_bomb then
      explodeGrid (placePiece g.grid p) p.x p.y else placePiece g.grid p),
      y ∈ touchedRows p := by
    intro y hy
    apply tb_fullRows_place_sub g.grid p hd.1 hnf
    split at hy
    · exact tb_fullRows_explode_sub _ hdp _ _ y hy
    · exact hy
  have hlen4 := ((tb_fullRows_nodup _).subperm hsub).length_le
  rw [tb_touchedRows_length] at hlen4
  have hfour := le_trans hlen4 hshape.1
  refine ⟨hfour, ?_⟩
  have h5 : lineScoreTable.length = 5 := rfl
  omega

/-- Witness for C9: a reachable state (fresh O-piece resting on the empty
board's floor) about to lock. -/
theorem reachable_lock_clears_at_most_four_witness :
    (fullRows (if oPieceOnFloor.is_bomb then
        explodeGrid (placePiece blockedGame.grid oPieceOnFloor)
          oPieceOnFloor.x oPieceOnFloor.y
      else placePiece blockedGame.grid oPieceOnFloor)).length ≤ 4 := by
  have hreach : Reachable blockedGame := by
    apply Reachable.init blockedGame rfl
    intro q hq
    have hsome : some oPieceOnFloor = some q := hq
    obtain rfl := Option.some.inj hsome
    exact GoodShape.base 1
  exact (reachable_lock_clears_at_most_four blockedGame oPieceOnFloor hreach rfl).1
